import Mathlib

/-!
Shallow embedding of the windowed pagination fetcher of `python-lomography`
(`src/lomography/utils/requests.py`).  The function `_fetch_photo_dicts`
(and its textually identical camera/film twins) computes

    start_page = (index // 20) + 1
    end_page   = ((index + amt - 1) // 20) + 1
    tasks      = [fetch(lomo, page) for page in range(start_page, end_page + 1)]
    results    = await asyncio.gather(*tasks)
    photos     = [photo for result in results for photo in result["photos"]]
    return photos[index : index + amt]

Python `//` is floor division (so `(0 + 0 - 1) // 20 = -1`), which we model
with `Int.fdiv`.  Python slices clamp to the list length.  The fetcher is
generic over the item type; the page-fetch callback is modelled as a function
from the page number to the page's item list (or to `Except` for the
error-propagation model).  `asyncio.gather` returns its results in task
order, which we model both directly (as a `map` in task order) and through a
completion-schedule model (`gatherSched`) that makes explicit that each
result is stored back into the slot of its originating task no matter when
the task finishes.
-/

namespace Lomography

/-- Python slice `l[a:b]` for nonnegative bounds `a`, `b`: the elements at
positions `a, a+1, ..., b-1`, clamped to the actual length of the list. -/
def pySlice (l : List α) (a b : Nat) : List α :=
  (l.drop a).take (b - a)

/-- Python `range(a, b)` over integers: `a, a+1, ..., b-1` (empty if `b ≤ a`). -/
def pyRange (a b : Int) : List Int :=
  (List.range (b - a).toNat).map (fun (i : Nat) => a + (i : Int))

/-- Line 67 of `requests.py`: `start_page = (index // 20) + 1`. -/
def start_page (index : Nat) : Int :=
  Int.fdiv (index : Int) 20 + 1

/-- Line 68 of `requests.py`: `end_page = ((index + amt - 1) // 20) + 1`
(Python floor division; the dividend is `-1` when `amt = index = 0`). -/
def end_page (amt index : Nat) : Int :=
  Int.fdiv ((index : Int) + (amt : Int) - 1) 20 + 1

/-- The page numbers for which `_fetch_photo_dicts` creates fetch tasks
(lines 71-75 of `requests.py`): `range(start_page, end_page + 1)`, in
ascending order, one task per page number. -/
def fetchPages (amt index : Nat) : List Int :=
  pyRange (start_page index) (end_page amt index + 1)

/-- Shallow embedding of `_fetch_photo_dicts` (lines 53-80 of `requests.py`),
generic over the item type (the camera and film twins are identical up to the
response field name).  `fetch p` is the item list of page `p`;
`asyncio.gather` returns the page results in task (ascending page) order, the
pages are concatenated in that order, and the result is the Python slice
`photos[index : index + amt]` — note the source slices with the GLOBAL
`index`, not a page-local offset. -/
def fetch_photo_dicts (fetch : Int → List α) (amt index : Nat) : List α :=
  let photos := ((fetchPages amt index).map fetch).flatten
  pySlice photos index (index + amt)

/-- Upstream model: the pages of a total item list `L`, page size 20.  Page
`p` (1-based) holds the items at global positions `(p-1)*20 .. p*20 - 1`;
every page is full except possibly the last, and pages past the end of `L`
are empty. -/
def pagesOf (L : List α) (p : Int) : List α :=
  (L.drop ((p - 1).toNat * 20)).take 20

/-- The slicing step as the spec words it (step 6 of the algorithm in §4.1):
slice the concatenation at LOCAL offsets
`[index - (start_page - 1)*20, index - (start_page - 1)*20 + amt)`, clamped.
This definition follows the spec's words; `fetch_photo_dicts` follows the
source, which slices at the global `index` instead.  They agree exactly when
`start_page = 1` (that is, `index < 20`). -/
def fetchWindowSpecSlice (fetch : Int → List α) (amt index : Nat) : List α :=
  let photos := ((fetchPages amt index).map fetch).flatten
  let lo := index - (start_page index - 1).toNat * 20
  pySlice photos lo (lo + amt)

/-- Fail-fast model of `asyncio.gather` over fallible page fetches: collect
the page results in task order; if any fetch fails, the whole gather fails
with that error and produces no result list. -/
def gatherE (fetch : Int → Except ε (List α)) : List Int → Except ε (List (List α))
  | [] => .ok []
  | p :: ps =>
    match fetch p with
    | .error e => .error e
    | .ok l =>
      match gatherE fetch ps with
      | .error e => .error e
      | .ok ls => .ok (l :: ls)

/-- `_fetch_photo_dicts` with fallible page fetches: any page failure aborts
the whole windowed request (line 78, `await asyncio.gather(*tasks)` raises);
otherwise the pages are assembled exactly as the fetcher does. -/
def fetch_photo_dicts_exc (fetch : Int → Except ε (List α)) (amt index : Nat) :
    Except ε (List α) :=
  match gatherE fetch (fetchPages amt index) with
  | .error e => .error e
  | .ok results => .ok (pySlice results.flatten index (index + amt))

/-- Completion-order model of `asyncio.gather`: the concurrent tasks finish
in the order given by `order` (a permutation of the task indices), and each
result is stored back into the slot of its originating task, so slot `i`
ends up holding the page fetched by task `i` regardless of when it ran. -/
def gatherSched (fetch : Int → List α) (pages : List Int) (order : List Nat) :
    List (List α) :=
  order.foldl (fun acc i => acc.set i (fetch (pages.getD i 0)))
    (List.replicate pages.length [])

/-- `_fetch_photo_dicts` where the concurrent page fetches complete in the
arbitrary order `order` instead of task order. -/
def fetch_photo_dicts_sched (fetch : Int → List α) (amt index : Nat)
    (order : List Nat) : List α :=
  pySlice ((gatherSched fetch (fetchPages amt index) order).flatten)
    index (index + amt)

/-! ## Helper lemmas -/

lemma mem_pyRange {a b p : Int} : p ∈ pyRange a b ↔ a ≤ p ∧ p < b := by
  unfold pyRange
  simp only [List.mem_map, List.mem_range]
  constructor
  · rintro ⟨i, hi, rfl⟩; omega
  · intro h; exact ⟨(p - a).toNat, by omega, by omega⟩

lemma nodup_pyRange (a b : Int) : (pyRange a b).Nodup := by
  unfold pyRange
  exact (List.nodup_range _).map (fun i j h => by omega)

lemma pyRange_eq_nil {a b : Int} (h : b ≤ a) : pyRange a b = [] := by
  unfold pyRange
  have h0 : (b - a).toNat = 0 := by omega
  rw [h0]
  rfl

lemma pyRange_singleton (a : Int) : pyRange a (a + 1) = [a] := by
  unfold pyRange
  have h1 : (a + 1 - a).toNat = 1 := by omega
  rw [h1, show List.range 1 = [0] from rfl]
  simp

lemma length_pySlice (l : List α) (a b : Nat) :
    (pySlice l a b).length = min (b - a) (l.length - a) := by
  simp [pySlice]

lemma start_page_eq (index : Nat) : start_page index = ((index / 20 : Nat) : Int) + 1 := by
  unfold start_page
  rw [Int.fdiv_eq_ediv _ (by norm_num)]
  omega

lemma end_page_eq (amt index : Nat) (h : 1 ≤ amt) :
    end_page amt index = (((index + amt - 1) / 20 : Nat) : Int) + 1 := by
  unfold end_page
  rw [Int.fdiv_eq_ediv _ (by norm_num)]
  omega

lemma gatherE_error_of_mem {fetch : Int → Except ε (List α)} {ps : List Int} {p : Int}
    {e : ε} (hp : p ∈ ps) (hf : fetch p = .error e) :
    ∃ e', gatherE fetch ps = .error e' := by
  induction ps with
  | nil => cases hp
  | cons q qs ih =>
    rcases hq : fetch q with e' | l
    · exact ⟨e', by simp [gatherE, hq]⟩
    · rcases List.mem_cons.1 hp with rfl | hmem
      · rw [hq] at hf
        cases hf
      · obtain ⟨e', he'⟩ := ih hmem
        exact ⟨e', by simp [gatherE, hq, he']⟩

lemma gatherE_error_unique {fetch : Int → Except ε (List α)} {ps : List Int} {p : Int}
    {e : ε} (hp : p ∈ ps) (hf : fetch p = .error e)
    (huniq : ∀ q ∈ ps, q ≠ p → ∃ l, fetch q = .ok l) :
    gatherE fetch ps = .error e := by
  induction ps with
  | nil => cases hp
  | cons q qs ih =>
    by_cases hqp : q = p
    · subst hqp
      simp [gatherE, hf]
    · obtain ⟨l, hl⟩ := huniq q (List.mem_cons_self q qs) hqp
      have hmem : p ∈ qs := by
        rcases List.mem_cons.1 hp with rfl | hm
        · exact absurd rfl hqp
        · exact hm
      have hrec := ih hmem (fun r hr hrp => huniq r (List.mem_cons_of_mem _ hr) hrp)
      simp [gatherE, hl, hrec]

lemma foldl_set_getElem? (g : Nat → List α) (order : List Nat) :
    ∀ (acc : List (List α)) (j : Nat),
      (order.foldl (fun a i => a.set i (g i)) acc)[j]? =
        if j ∈ order ∧ j < acc.length then some (g j) else acc[j]? := by
  induction order with
  | nil => intro acc j; simp
  | cons i rest ih =>
    intro acc j
    simp only [List.foldl_cons]
    rw [ih, List.length_set]
    by_cases hij : i = j
    · subst hij
      by_cases hlen : i < acc.length
      · by_cases hir : i ∈ rest <;>
          simp [hir, hlen, List.mem_cons, List.getElem?_set]
      · have hnone : acc[i]? = none := List.getElem?_eq_none (by omega)
        by_cases hir : i ∈ rest <;>
          simp [hir, hlen, List.mem_cons, List.getElem?_set, hnone]
    · have hset : (acc.set i (g i))[j]? = acc[j]? := by
        rw [List.getElem?_set, if_neg hij]
      by_cases hjr : j ∈ rest <;> by_cases hjl : j < acc.length <;>
        simp [hjr, hjl, List.mem_cons, hset, hij, Ne.symm hij]

lemma gatherSched_eq_map (fetch : Int → List α) (pages : List Int) (order : List Nat)
    (h : ∀ i, i < pages.length ↔ i ∈ order) :
    gatherSched fetch pages order = pages.map fetch := by
  apply List.ext_getElem?
  intro j
  unfold gatherSched
  rw [foldl_set_getElem?, List.length_replicate]
  by_cases hj : j < pages.length
  · have hmem : j ∈ order := (h j).1 hj
    rw [if_pos ⟨hmem, hj⟩, List.getElem?_map, List.getElem?_eq_getElem hj]
    simp [List.getD, List.getElem?_eq_getElem hj]
  · have hmem : j ∉ order := fun hm => hj ((h j).2 hm)
    rw [if_neg (by tauto), List.getElem?_eq_none (by simpa using Nat.le_of_not_lt hj),
      List.getElem?_map, List.getElem?_eq_none (Nat.le_of_not_lt hj)]
    rfl

lemma flatten_range_take_drop (L : List α) :
    ∀ (n k : Nat),
      ((List.range n).map (fun i => (L.drop ((k + i) * 20)).take 20)).flatten
        = (L.drop (k * 20)).take (n * 20) := by
  intro n
  induction n with
  | zero => intro k; simp
  | succ m ih =>
    intro k
    rw [List.range_succ_eq_map]
    simp only [List.map_cons, List.flatten_cons, List.map_map]
    have hfun : ((fun i => (L.drop ((k + i) * 20)).take 20) ∘ Nat.succ)
        = (fun i => (L.drop (((k + 1) + i) * 20)).take 20) := by
      funext i
      simp only [Function.comp]
      congr 2
      omega
    rw [hfun, ih (k + 1)]
    have h1 : (m + 1) * 20 = 20 + m * 20 := by ring
    rw [h1, List.take_add, List.drop_drop]
    have h2 : k + 0 = k := by omega
    have h3 : (k + 1) * 20 = k * 20 + 20 := by ring
    rw [h2, h3]

lemma map_pagesOf (L : List α) (amt index : Nat) :
    (fetchPages amt index).map (pagesOf L)
      = (List.range (fetchPages amt index).length).map
          (fun i => (L.drop ((index / 20 + i) * 20)).take 20) := by
  unfold fetchPages pyRange
  rw [List.length_map, List.length_range, List.map_map]
  apply List.map_congr_left
  intro i _
  simp only [Function.comp, pagesOf]
  congr 2
  rw [start_page_eq]
  omega

/-! ## The claims -/

/-- Claim C1 (refuted; the code is buggy): the claim says the windowed
fetcher returns `min(amt, max(0, total - index))` items for any upstream
whose pages are full except possibly the last.  The source slices the
page-local concatenation with the GLOBAL `index` (line 80), so for
`amt = 1`, `index = 20` over an upstream of 40 items (two full pages) the
code returns 0 items, although `min(1, max(0, 40 - 20)) = 1`. -/
theorem c1_length_formula_fails_at_index_20 :
    fetch_photo_dicts (pagesOf (List.range 40)) 1 20 = [] ∧
    min 1 ((List.range 40).length - 20) = 1 := by
  decide

/-- Claim C2 (refuted; the code is buggy): the claim says the result is the
concatenation of the fetched pages sliced at LOCAL offsets
`[index - (start_page-1)*20, index - (start_page-1)*20 + amt)`.  The source
slices at the global `index` instead: at `amt = 1`, `index = 20` over 40
upstream items, the code yields `[]` while the spec's local-offset slice
yields the item at global position 20. -/
theorem c2_global_slice_ne_local_slice :
    fetch_photo_dicts (pagesOf (List.range 40)) 1 20 = [] ∧
    fetchWindowSpecSlice (pagesOf (List.range 40)) 1 20 = [20] := by
  decide

/-- Claim C3 (confirmed): for `amt ≥ 1`, the page numbers passed to the
fetch callback are exactly the integers of the inclusive range
`[index/20 + 1, (index + amt - 1)/20 + 1]`, each exactly once (the task
list has no duplicates), and every one of them is a positive integer. -/
theorem c3_page_range (amt index : Nat) (h : 1 ≤ amt) :
    (∀ p : Int, p ∈ fetchPages amt index ↔
      ((index / 20 : Nat) : Int) + 1 ≤ p ∧ p ≤ (((index + amt - 1) / 20 : Nat) : Int) + 1) ∧
    (fetchPages amt index).Nodup ∧
    ∀ p ∈ fetchPages amt index, 1 ≤ p := by
  have hmem : ∀ p : Int, p ∈ fetchPages amt index ↔
      ((index / 20 : Nat) : Int) + 1 ≤ p ∧ p ≤ (((index + amt - 1) / 20 : Nat) : Int) + 1 := by
    intro p
    unfold fetchPages
    rw [mem_pyRange, start_page_eq, end_page_eq amt index h]
    omega
  refine ⟨hmem, nodup_pyRange _ _, fun p hp => ?_⟩
  have h2 := (hmem p).1 hp
  omega

/-- Witness for C3 at `amt = 25`, `index = 15`: pages 1..2. -/
theorem c3_page_range_witness :
    (∀ p : Int, p ∈ fetchPages 25 15 ↔
      ((15 / 20 : Nat) : Int) + 1 ≤ p ∧ p ≤ (((15 + 25 - 1) / 20 : Nat) : Int) + 1) ∧
    (fetchPages 25 15).Nodup ∧
    ∀ p ∈ fetchPages 25 15, 1 ≤ p :=
  c3_page_range 25 15 (by decide)

/-- Claim C4 (confirmed): if any issued page fetch fails, the whole windowed
fetch fails — an error is returned and no item list is produced — and when
the failing page is the only failing one, the operation fails with exactly
that page's error. -/
theorem c4_error_propagation {ε : Type} (fetch : Int → Except ε (List α))
    (amt index : Nat) (p : Int) (e : ε)
    (hp : p ∈ fetchPages amt index) (hf : fetch p = .error e) :
    (∃ e', fetch_photo_dicts_exc fetch amt index = .error e') ∧
    ((∀ q ∈ fetchPages amt index, q ≠ p → ∃ l, fetch q = .ok l) →
      fetch_photo_dicts_exc fetch amt index = .error e) := by
  constructor
  · obtain ⟨e', he'⟩ := gatherE_error_of_mem hp hf
    exact ⟨e', by simp [fetch_photo_dicts_exc, he']⟩
  · intro huniq
    have h := gatherE_error_unique hp hf huniq
    simp [fetch_photo_dicts_exc, h]

/-- Witness for C4: a callback failing on page 2 but succeeding elsewhere,
for the window `amt = 25`, `index = 15` (pages 1 and 2). -/
theorem c4_error_propagation_witness :
    (∃ e', fetch_photo_dicts_exc
        (fun p => if p = 2 then Except.error 0 else Except.ok ([1] : List Nat)) 25 15
        = .error e') ∧
    ((∀ q ∈ fetchPages 25 15, q ≠ 2 →
        ∃ l, (fun p => if p = 2 then Except.error 0 else Except.ok ([1] : List Nat)) q
          = .ok l) →
      fetch_photo_dicts_exc
        (fun p => if p = 2 then Except.error 0 else Except.ok ([1] : List Nat)) 25 15
        = .error 0) :=
  c4_error_propagation (fun p => if p = 2 then Except.error 0 else Except.ok ([1] : List Nat))
    25 15 2 0 (by decide) (by rfl)

/-- Claim C5 counterexample: the claim says `amt = 0` issues ZERO fetches
for every `index ≥ 0`, but at `index = 5` the code computes
`start_page = 1`, `end_page = (4 // 20) + 1 = 1` and issues one fetch for
page 1. -/
theorem c5_zero_amt_counterexample :
    fetchPages 0 5 = [(1 : Int)] ∧ fetchPages 0 5 ≠ [] := by
  decide

/-- Claim C5 as amended: for `amt = 0` the result is always empty, but the
callback is invoked zero times only when `index` is a multiple of 20
(including 0); otherwise exactly one fetch is issued, for page
`index/20 + 1`. -/
theorem c5_zero_amt_amended (fetch : Int → List α) (index : Nat) :
    fetch_photo_dicts fetch 0 index = [] ∧
    fetchPages 0 index =
      (if index % 20 = 0 then [] else [((index / 20 : Nat) : Int) + 1]) := by
  constructor
  · simp [fetch_photo_dicts, pySlice]
  · by_cases hmod : index % 20 = 0
    · rw [if_pos hmod]
      unfold fetchPages
      apply pyRange_eq_nil
      unfold start_page end_page
      rw [Int.fdiv_eq_ediv _ (by norm_num), Int.fdiv_eq_ediv _ (by norm_num)]
      omega
    · rw [if_neg hmod]
      unfold fetchPages
      have hend : end_page 0 index + 1 = start_page index + 1 := by
        unfold start_page end_page
        rw [Int.fdiv_eq_ediv _ (by norm_num), Int.fdiv_eq_ediv _ (by norm_num)]
        omega
      rw [hend, pyRange_singleton, start_page_eq]

/-- Claim C6 (confirmed): the task list is in strictly ascending page-number
order, the gathered results are indexed back to their originating task, so
for ANY completion order (any permutation of the task indices) the gathered
page list equals the pages in ascending page-number order, and the final
output is unchanged. -/
theorem c6_completion_order_irrelevant (fetch : Int → List α) (amt index : Nat)
    (order : List Nat)
    (h : order.Perm (List.range (fetchPages amt index).length)) :
    List.Pairwise (· < ·) (fetchPages amt index) ∧
    gatherSched fetch (fetchPages amt index) order = (fetchPages amt index).map fetch ∧
    fetch_photo_dicts_sched fetch amt index order = fetch_photo_dicts fetch amt index := by
  have hiff : ∀ i, i < (fetchPages amt index).length ↔ i ∈ order := by
    intro i
    rw [h.mem_iff]
    simp [List.mem_range]
  have hg := gatherSched_eq_map fetch _ order hiff
  refine ⟨?_, hg, ?_⟩
  · unfold fetchPages pyRange
    exact List.Pairwise.map _ (fun a b hab => by omega) (List.pairwise_lt_range _)
  · unfold fetch_photo_dicts_sched fetch_photo_dicts
    rw [hg]

/-- Witness for C6: the two tasks of the window `amt = 25`, `index = 15`
completing in reverse order `[1, 0]` yield the same output as task order. -/
theorem c6_completion_order_irrelevant_witness :
    List.Pairwise (· < ·) (fetchPages 25 15) ∧
    gatherSched (pagesOf (List.range 40)) (fetchPages 25 15) [1, 0] =
      (fetchPages 25 15).map (pagesOf (List.range 40)) ∧
    fetch_photo_dicts_sched (pagesOf (List.range 40)) 25 15 [1, 0] =
      fetch_photo_dicts (pagesOf (List.range 40)) 25 15 :=
  c6_completion_order_irrelevant (pagesOf (List.range 40)) 25 15 [1, 0] (by decide)

/-- Claim C7 (confirmed): when `index` is at or beyond the upstream total,
every fetched page of the computed range is partial or empty, and the
windowed fetcher returns an empty list (no error; the embedding is total,
and the page fetches of the computed range are issued by construction). -/
theorem c7_index_beyond_total (L : List α) (amt index : Nat) (h : L.length ≤ index) :
    fetch_photo_dicts (pagesOf L) amt index = [] := by
  have hconcat : ((fetchPages amt index).map (pagesOf L)).flatten
      = (L.drop ((index / 20) * 20)).take ((fetchPages amt index).length * 20) := by
    rw [map_pagesOf, flatten_range_take_drop]
  have hlen : (((fetchPages amt index).map (pagesOf L)).flatten).length ≤ index := by
    rw [hconcat]
    simp only [List.length_take, List.length_drop]
    omega
  simp only [fetch_photo_dicts, pySlice]
  rw [List.drop_eq_nil_of_le hlen]
  simp

/-- Witness for C7: the spec's own example — window `amt = 20`,
`index = 1000` over an upstream total of 50 items returns `[]`. -/
theorem c7_index_beyond_total_witness :
    (List.range 50).length ≤ 1000 ∧
    fetch_photo_dicts (pagesOf (List.range 50)) 20 1000 = [] :=
  ⟨by decide, c7_index_beyond_total (List.range 50) 20 1000 (by decide)⟩

/-- Claim C8 counterexample: for `amt = 25`, `index = 15` over two full
pages, the claim says the result is local offsets 15..19 of page 1 followed
by local offsets 0..4 of page 2 — only 10 items.  The code returns 25 items
(offsets 15..19 of page 1 followed by ALL of page 2), so the claimed value
is wrong. -/
theorem c8_window_25_15_counterexample :
    fetch_photo_dicts (pagesOf (List.range 40)) 25 15 ≠
      pySlice (pagesOf (List.range 40) 1) 15 20 ++ pySlice (pagesOf (List.range 40) 2) 0 5 := by
  decide

/-- Claim C8 as amended: for `amt = 25`, `index = 15` with page size 20, the
fetcher issues fetches for exactly pages 1 and 2, and (when both pages are
full) returns the items at local offsets 15..19 of page 1 followed by the
items at local offsets 0..19 of page 2, i.e. all of page 2. -/
theorem c8_window_25_15_amended (fetch : Int → List α)
    (h1 : (fetch 1).length = 20) (h2 : (fetch 2).length = 20) :
    fetchPages 25 15 = [1, 2] ∧
    fetch_photo_dicts fetch 25 15 = (fetch 1).drop 15 ++ fetch 2 := by
  have hp : fetchPages 25 15 = [1, 2] := by decide
  refine ⟨hp, ?_⟩
  simp only [fetch_photo_dicts, hp, List.map_cons, List.map_nil, List.flatten_cons,
    List.flatten_nil, List.append_nil]
  unfold pySlice
  rw [List.drop_append_of_le_length (by omega)]
  have hlen : ((fetch 1).drop 15 ++ fetch 2).length ≤ 15 + 25 - 15 := by
    simp [List.length_append, List.length_drop, h1, h2]
  rw [List.take_of_length_le hlen]

/-- Witness for the amended C8: two full pages drawn from 40 upstream items. -/
theorem c8_window_25_15_amended_witness :
    fetchPages 25 15 = [(1 : Int), 2] ∧
    fetch_photo_dicts (pagesOf (List.range 40)) 25 15 =
      (pagesOf (List.range 40) 1).drop 15 ++ pagesOf (List.range 40) 2 :=
  c8_window_25_15_amended (pagesOf (List.range 40)) (by decide) (by decide)

/-- Claim C9 (confirmed): for EVERY callback — including ones whose pages
are not 20 items long — the final slice is bounded by the actual length of
the concatenation: the result length is exactly
`min amt (concatenation length - index)` and in particular never exceeds
`amt` (the slice clamps, so nothing is ever out of bounds and no error is
raised by the slicing step; the embedding is total). -/
theorem c9_slice_bounded (fetch : Int → List α) (amt index : Nat) :
    (fetch_photo_dicts fetch amt index).length =
      min amt (((fetchPages amt index).map fetch).flatten.length - index) ∧
    (fetch_photo_dicts fetch amt index).length ≤ amt := by
  have h : (fetch_photo_dicts fetch amt index).length =
      min amt (((fetchPages amt index).map fetch).flatten.length - index) := by
    simp only [fetch_photo_dicts, length_pySlice]
    congr 1
    omega
  exact ⟨h, by omega⟩

/-- Claim C10 (confirmed): for every callback, the returned list is a
contiguous slice (an infix) of the concatenation of the fetched pages in
page order — hence it contains no item outside the fetched pages,
introduces no duplicates, and preserves relative order; explicitly, every
returned item belongs to some fetched page. -/
theorem c10_result_contiguous_slice (fetch : Int → List α) (amt index : Nat) :
    fetch_photo_dicts fetch amt index <:+: ((fetchPages amt index).map fetch).flatten ∧
    ∀ x ∈ fetch_photo_dicts fetch amt index, ∃ p ∈ fetchPages amt index, x ∈ fetch p := by
  have heq : fetch_photo_dicts fetch amt index =
      ((((fetchPages amt index).map fetch).flatten).drop index).take amt := by
    simp [fetch_photo_dicts, pySlice]
  have hinf : fetch_photo_dicts fetch amt index <:+:
      ((fetchPages amt index).map fetch).flatten := by
    rw [heq]
    exact ⟨(((fetchPages amt index).map fetch).flatten).take index,
      ((((fetchPages amt index).map fetch).flatten).drop index).drop amt,
      by rw [List.append_assoc, List.take_append_drop, List.take_append_drop]⟩
  refine ⟨hinf, fun x hx => ?_⟩
  have hmem : x ∈ ((fetchPages amt index).map fetch).flatten := hinf.subset hx
  simpa [List.mem_flatten, List.mem_map] using hmem

end Lomography
